import Mathlib

/-!
# Verification of the EC2 metadata crawler/normalizer (`library/cloud/ec2_facts.py`)

Shallow embedding of the `Ec2Metadata` class.  Python dicts with string keys
are embedded as insertion-ordered association lists (`Table`); the HTTP
collaborator (`urllib2.urlopen(url).read()` wrapped in `_fetch`'s
`try/except`) is embedded as an arbitrary function `Svc : String → Option
String`, where `none` models a caught `HTTPError`/`URLError` and `some body`
a successful read.  The unbounded Python recursion in `Ec2Metadata.fetch` is
embedded with an explicit fuel parameter; `FRes.fuelOut` marks fuel
exhaustion and `FRes.exn` marks an uncaught Python exception
(`AttributeError` from `None.split` in the `security-groups` branch).

Python string operations used by the source (`split`, `join`, `startswith`,
`endswith`, `in`, slicing, `str.replace` on single characters, and
`re.search` with the literal pattern `'public-keys-0'`) are embedded as
structurally recursive functions over the character list of the string, so
that every definition evaluates inside the kernel.
-/

/-- A Python dict with string keys, in insertion order.  Values are
`Option String` because the source stores `self._fetch(...)` results, which
are `None` when the underlying request failed. -/
abbrev Table := List (String × Option String)

/-- Dict lookup: `d[k]` as an `Option`; `some v` when the key is present. -/
def dlookup : Table → String → Option (Option String)
  | [], _ => none
  | (k, v) :: t, key => if k = key then some v else dlookup t key

/-- Python `key in d`. -/
def dmem (d : Table) (k : String) : Bool :=
  (dlookup d k).isSome

/-- Python `d[key] = v`: overwrite in place when present, append otherwise. -/
def dinsert : Table → String → Option String → Table
  | [], key, v => [(key, v)]
  | (k, w) :: t, key, v =>
    if k = key then (k, v) :: t else (k, w) :: dinsert t key v

/-- Python `d.keys()` (insertion order). -/
def keysOf (d : Table) : List String :=
  d.map Prod.fst

/-! ## Python string primitives, embedded over `String.data` -/

/-- Helper for `pySplit`: accumulate the current chunk (reversed). -/
def splitChAux (sep : Char) : List Char → List Char → List (List Char)
  | [], acc => [acc.reverse]
  | c :: cs, acc =>
    if c = sep then acc.reverse :: splitChAux sep cs []
    else splitChAux sep cs (c :: acc)

/-- Python `s.split(sep)` for a single-character separator (the source only
splits on `'\n'` and `'/'`).  `"".split(sep) = ['']`. -/
def pySplit (s : String) (sep : Char) : List String :=
  (splitChAux sep s.data []).map String.mk

/-- Python `sep.join(parts)`. -/
def pyJoin (sep : String) : List String → String
  | [] => ""
  | [s] => s
  | s :: rest => s ++ sep ++ pyJoin sep rest

/-- Boolean list-prefix test (first argument is the candidate prefix). -/
def isPrefixB : List Char → List Char → Bool
  | [], _ => true
  | _ :: _, [] => false
  | a :: p, b :: s => if a = b then isPrefixB p s else false

/-- Python `s.startswith(pre)`. -/
def pyStartsWith (s pre : String) : Bool :=
  isPrefixB pre.data s.data

/-- Python `s.endswith(suf)`. -/
def pyEndsWith (s suf : String) : Bool :=
  isPrefixB suf.data.reverse s.data.reverse

/-- Boolean infix (substring) test on character lists. -/
def isInfixB (p : List Char) : List Char → Bool
  | [] => isPrefixB p []
  | c :: s => isPrefixB p (c :: s) || isInfixB p s

/-- Python `re.search(pattern, key)` for the literal (metacharacter-free)
pattern `'public-keys-0'`: a plain substring search, `true` when a match
exists. -/
def reSearch (pat s : String) : Bool :=
  isInfixB pat.data s.data

/-- Character membership in a character list. -/
def containsCh (c : Char) : List Char → Bool
  | [] => false
  | a :: l => if a = c then true else containsCh c l

/-- Python `c in s` for a single character `c`. -/
def pyIn (c : Char) (s : String) : Bool :=
  containsCh c s.data

/-- The character substitution performed by
`key.replace(':', '_').replace('-', '_')`. -/
def fixChar (c : Char) : Char :=
  if c = ':' then '_' else if c = '-' then '_' else c

/-- `key.replace(':', '_').replace('-', '_')`: both replacements substitute a
single character, so their composition is a character map. -/
def sanitizeKey (s : String) : String :=
  String.mk (s.data.map fixChar)

/-- Python `s[n:]` (character slicing; all strings involved are ASCII). -/
def pyDropLeft (s : String) (n : Nat) : String :=
  String.mk (s.data.drop n)

/-! ## The crawler: `Ec2Metadata.fetch` -/

/-- The HTTP collaborator as seen through `Ec2Metadata._fetch`: `none` when
`urllib2.urlopen(url).read()` raised a caught `HTTPError`/`URLError`,
`some body` on success. -/
abbrev Svc := String → Option String

/-- Result of a crawl step.  `exn` models the uncaught `AttributeError`
raised by `",".join(content.split('\n'))` when `content` is `None`;
`fuelOut` models exhaustion of the explicit recursion fuel. -/
inductive FRes where
  | ok (d : Table)
  | exn
  | fuelOut
  deriving DecidableEq

/-- The `new_uri` computation in `fetch`: `uri + field` when `uri` ends with
`'/'`, else `uri + '/' + field`. -/
def childUri (uri field : String) : String :=
  if pyEndsWith uri "/" then uri ++ field else uri ++ "/" ++ field

/-- The `security-groups` transformation `",".join(content.split('\n'))`. -/
def sgJoin (c : String) : String :=
  pyJoin "," (pySplit c '\n')

/-- The `for field in subfields` loop of `Ec2Metadata.fetch`.  `recur` is the
recursive call `self.fetch(uri + field)` (with its default `recurse=True`),
abstracted so that the loop is structurally recursive on the field list. -/
def fetchLoop (recur : String → Table → FRes) (svc : Svc) (uri : String)
    (rec : Bool) : List String → Table → FRes
  | [], d => .ok d
  | field :: rest, d =>
    match (if pyEndsWith field "/" ∧ rec = true then recur (uri ++ field) d else .ok d) with
    | .ok d1 =>
      if dmem d1 (childUri uri field) = false ∧
          pyEndsWith (childUri uri field) "/" = false then
        if field = "security-groups" then
          match svc (childUri uri field) with
          | none => .exn
          | some c =>
            fetchLoop recur svc uri rec rest
              (dinsert d1 (childUri uri field) (some (sgJoin c)))
        else
          fetchLoop recur svc uri rec rest
            (dinsert d1 (childUri uri field) (svc (childUri uri field)))
      else
        fetchLoop recur svc uri rec rest d1
    | .exn => .exn
    | .fuelOut => .fuelOut

/-- `Ec2Metadata.fetch(uri, recurse)`, with fuel bounding the recursion
depth (the Python recursion depth is unbounded).  An empty or failed listing
read (`if not raw_subfields: return`) leaves the table unchanged. -/
def fetchF : Nat → Svc → String → Bool → Table → FRes
  | 0, _, _, _, _ => .fuelOut
  | n + 1, svc, uri, rec, d =>
    match svc uri with
    | none => .ok d
    | some body =>
      if body = "" then .ok d
      else fetchLoop (fun u t => fetchF n svc u true t) svc uri rec (pySplit body '\n') d

/-! ## The normalizer: `_mangle_fields`, `fix_invalid_varnames` -/

/-- `self._prefix % name` with `self._prefix = 'ansible_ec2_%s'`. -/
def prefixKey (s : String) : String :=
  "ansible_ec2_" ++ s

/-- The new key computed for one raw key in `_mangle_fields`:
strip the `uri` prefix, split on `'/'`; join with `'-'` when there is more
than one field and the second is non-empty, else concatenate; then apply the
namespace prefix. -/
def mangledKey (uri rawKey : String) : String :=
  if (pySplit (pyDropLeft rawKey uri.length) '/').length > 1 ∧
      (pySplit (pyDropLeft rawKey uri.length) '/').getD 1 "" ≠ "" then
    prefixKey (pyJoin "-" (pySplit (pyDropLeft rawKey uri.length) '/'))
  else
    prefixKey (pyJoin "" (pySplit (pyDropLeft rawKey uri.length) '/'))

/-- The first loop of `_mangle_fields`: re-key every raw entry. -/
def buildNewFields (fields : Table) (uri : String) : Table :=
  fields.foldl (fun nf kv => dinsert nf (mangledKey uri kv.1) kv.2) []

/-- `Ec2Metadata._mangle_fields(fields, uri, filter_patterns)`: re-key, then
pop every key on which `re.search(pattern, key)` matches. -/
def mangleFields (fields : Table) (uri : String) (patterns : List String) : Table :=
  patterns.foldl (fun nf pat => nf.filter (fun kv => !reSearch pat kv.1))
    (buildNewFields fields uri)

/-- `Ec2Metadata.fix_invalid_varnames(data)`: iterate over a snapshot of
`data.items()`; for every key containing `':'` or `'-'`, assign
`data[newkey] = value` for the substituted key.  The original keys are not
removed. -/
def fixInvalidVarnames (data : Table) : Table :=
  data.foldl
    (fun d kv =>
      if pyIn ':' kv.1 || pyIn '-' kv.1 then dinsert d (sanitizeKey kv.1) kv.2 else d)
    data

/-! ## Region inference: `add_ec2_region` -/

/-- The fixed ordered tuple `Ec2Metadata.AWS_REGIONS`. -/
def AWS_REGIONS : List String :=
  ["ap-northeast-1", "ap-southeast-1", "ap-southeast-2", "eu-west-1",
   "sa-east-1", "us-east-1", "us-west-1", "us-west-2"]

/-- Python `data.get(k)`: `None` both when the key is missing and when the
stored value is `None`. -/
def pyGet (d : Table) (k : String) : Option String :=
  match dlookup d k with
  | some v => v
  | none => none

/-- The `for r in self.AWS_REGIONS: if zone.startswith(r): region = r; break`
loop, starting from `region = zone`. -/
def regionLoop (zone : String) : List String → String
  | [] => zone
  | r :: rs => if pyStartsWith zone r then r else regionLoop zone rs

/-- `Ec2Metadata.add_ec2_region(data)`. -/
def addEc2Region (data : Table) : Table :=
  match pyGet data "ansible_ec2_placement_availability_zone" with
  | none => data
  | some zone =>
    dinsert data "ansible_ec2_placement_region" (some (regionLoop zone AWS_REGIONS))

/-! ## The whole pipeline: `Ec2Metadata.run` -/

/-- `Ec2Metadata.run()`: crawl from `uriMeta` into an initially empty raw
table, mangle, add the two supplementary keys from `uriUser` and `uriSsh`,
fix invalid variable names, infer the region.  The URI parameters correspond
to the constructor arguments of `Ec2Metadata`. -/
def runFuel (fuel : Nat) (svc : Svc) (uriMeta uriUser uriSsh : String) : FRes :=
  match fetchF fuel svc uriMeta true [] with
  | .ok raw =>
    let data := mangleFields raw uriMeta ["public-keys-0"]
    let data := dinsert data (prefixKey "user-data") (svc uriUser)
    let data := dinsert data (prefixKey "public-key") (svc uriSsh)
    let data := fixInvalidVarnames data
    let data := addEc2Region data
    .ok data
  | .exn => .exn
  | .fuelOut => .fuelOut

/-! ## Trace-instrumented crawler

`fetchTraceLoop`/`fetchTrace` are `fetchLoop`/`fetchF` with one addition:
every URI passed to the collaborator (`self._fetch`) is appended to a log,
both for directory listing reads and for leaf content reads.  The `FRes`
component coincides with the uninstrumented crawler's result. -/

/-- The `for field in subfields` loop of `fetch`, logging collaborator
queries. -/
def fetchTraceLoop (recur : String → Table → List String → FRes × List String)
    (svc : Svc) (uri : String) (rec : Bool) :
    List String → Table → List String → FRes × List String
  | [], d, log => (.ok d, log)
  | field :: rest, d, log =>
    match (if pyEndsWith field "/" ∧ rec = true then recur (uri ++ field) d log
           else (.ok d, log)) with
    | (.ok d1, log1) =>
      let nu := childUri uri field
      if dmem d1 nu = false ∧ pyEndsWith nu "/" = false then
        let log2 := log1 ++ [nu]
        if field = "security-groups" then
          match svc nu with
          | none => (.exn, log2)
          | some c =>
            fetchTraceLoop recur svc uri rec rest (dinsert d1 nu (some (sgJoin c))) log2
        else
          fetchTraceLoop recur svc uri rec rest (dinsert d1 nu (svc nu)) log2
      else
        fetchTraceLoop recur svc uri rec rest d1 log1
    | (.exn, l) => (.exn, l)
    | (.fuelOut, l) => (.fuelOut, l)

/-- `Ec2Metadata.fetch`, logging every URI the collaborator is asked for. -/
def fetchTrace : Nat → Svc → String → Bool → Table → List String → FRes × List String
  | 0, _, _, _, _, log => (.fuelOut, log)
  | n + 1, svc, uri, rec, d, log =>
    let log := log ++ [uri]
    match svc uri with
    | none => (.ok d, log)
    | some body =>
      if body = "" then (.ok d, log)
      else fetchTraceLoop (fun u t l => fetchTrace n svc u true t l) svc uri rec
        (pySplit body '\n') d log

/-! ## Concrete collaborator behaviours used as test inputs -/

/-- The end-to-end scenario of the spec: tree
`{"instance-id": c1, "placement/": {"availability-zone": c2}}` below base
URI `"b/"`, user-data endpoint `"uu"`, ssh-key endpoint `"ss"`. -/
def svcE2E (c1 c2 u p : String) : Svc := fun uri =>
  if uri = "b/" then some "instance-id\nplacement/"
  else if uri = "b/placement/" then some "availability-zone"
  else if uri = "b/instance-id" then some c1
  else if uri = "b/placement/availability-zone" then some c2
  else if uri = "uu" then some u
  else if uri = "ss" then some p
  else none

/-- A behaviour where the base listing succeeds with the single leaf
`security-groups` but the content read of that leaf fails. -/
def svcSGFail : Svc := fun uri =>
  if uri = "b/" then some "security-groups" else none

/-- A behaviour where the base listing succeeds with the single leaf `foo`
but the content read of that leaf fails. -/
def svcLeafFail : Svc := fun uri =>
  if uri = "b/" then some "foo" else none

/-- A behaviour with a single plain leaf `a` and working supplementary
endpoints. -/
def svcOneLeaf : Svc := fun uri =>
  if uri = "b/" then some "a"
  else if uri = "b/a" then some "x"
  else if uri = "uu" then some "UD"
  else if uri = "ss" then some "PK"
  else none

/-- A behaviour whose base listing repeats the directory entry `a/`. -/
def svcRepeatDir : Svc := fun uri =>
  if uri = "b/" then some "a/\na/"
  else if uri = "b/a/" then some "x"
  else if uri = "b/a/x" then some "y"
  else none

/-- A behaviour whose every listing is the single directory entry `a/`:
a cyclic listing, producing an infinitely deep virtual tree. -/
def svcCyclic : Svc := fun _ => some "a/"

/-- A behaviour with a successfully fetched `security-groups` leaf next to a
plain leaf. -/
def svcSGDemo : Svc := fun uri =>
  if uri = "b/" then some "security-groups\nother"
  else if uri = "b/security-groups" then some "sg-a\nsg-b\nsg-c"
  else if uri = "b/other" then some "plain"
  else none

/-- The collaborator behaviour in which every single request fails. -/
def svcAllFail : Svc := fun _ => none

/-! ## Derived key inventories (used to state the counting property)

`manKeys` lists the flat keys present after mangling and the two
supplementary inserts (in that order); `aliasKeys` lists the sanitized
aliases the invalid-character pass derives from them.  Both are spec-side
quantities computed from the raw table, used to state the key-count
formula. -/

/-- The mangled raw keys followed by the two supplementary keys. -/
def manKeys (um : String) (raw : Table) : List String :=
  raw.map (fun kv => mangledKey um kv.1) ++
    [prefixKey "user-data", prefixKey "public-key"]

/-- The sanitized aliases of the keys of `manKeys` that contain a colon or
hyphen. -/
def aliasKeys (um : String) (raw : Table) : List String :=
  ((manKeys um raw).filter (fun k => pyIn ':' k || pyIn '-' k)).map sanitizeKey

/-- The raw table produced by crawling the end-to-end scenario tree with
concrete contents. -/
def e2eRaw : Table :=
  [("b/instance-id", some "i-1234"),
   ("b/placement/availability-zone", some "us-east-1a")]

/-- The flat table produced by `run` on the end-to-end scenario with
concrete contents. -/
def e2eData : Table :=
  [("ansible_ec2_instance-id", some "i-1234"),
   ("ansible_ec2_placement-availability-zone", some "us-east-1a"),
   ("ansible_ec2_user-data", some "UD"), ("ansible_ec2_public-key", some "PK"),
   ("ansible_ec2_instance_id", some "i-1234"),
   ("ansible_ec2_placement_availability_zone", some "us-east-1a"),
   ("ansible_ec2_user_data", some "UD"), ("ansible_ec2_public_key", some "PK"),
   ("ansible_ec2_placement_region", some "us-east-1")]


/-! ## Dictionary lemmas -/

theorem dlookup_dinsert_self (d : Table) (k : String) (v : Option String) :
    dlookup (dinsert d k v) k = some v := by
  induction d with
  | nil => simp [dinsert, dlookup]
  | cons kv t ih =>
    obtain ⟨k0, w⟩ := kv
    by_cases h : k0 = k
    · simp [dinsert, dlookup, h]
    · simp [dinsert, dlookup, h, ih]

theorem dlookup_dinsert_ne (d : Table) (k k1 : String) (v : Option String)
    (h : k1 ≠ k) : dlookup (dinsert d k v) k1 = dlookup d k1 := by
  have hne : k ≠ k1 := fun hh => h hh.symm
  induction d with
  | nil => simp [dinsert, dlookup, hne]
  | cons kv t ih =>
    obtain ⟨k0, w⟩ := kv
    by_cases h0 : k0 = k
    · subst h0
      simp [dinsert, dlookup, hne]
    · simp [dinsert, dlookup, h0, ih]

theorem mem_keysOf_iff (d : Table) (k : String) :
    k ∈ keysOf d ↔ (dlookup d k).isSome := by
  induction d with
  | nil => simp [keysOf, dlookup]
  | cons kv t ih =>
    obtain ⟨k0, w⟩ := kv
    by_cases h : k0 = k
    · subst h
      simp [keysOf, dlookup]
    · have h2 : ¬ k = k0 := fun hh => h hh.symm
      have hl : dlookup ((k0, w) :: t) k = dlookup t k := by simp [dlookup, h]
      have hm : k ∈ keysOf ((k0, w) :: t) ↔ (k = k0 ∨ k ∈ keysOf t) := by
        simp [keysOf]
      rw [hl, hm]
      simp [h2, ih]

theorem dmem_false_eq_none (d : Table) (k : String) (h : dmem d k = false) :
    dlookup d k = none := by
  unfold dmem at h
  exact Option.not_isSome_iff_eq_none.mp (by simp [h])

theorem mem_keys_dinsert (d : Table) (k k1 : String) (v : Option String)
    (h : k1 ∈ keysOf (dinsert d k v)) : k1 ∈ keysOf d ∨ k1 = k := by
  by_cases hk : k1 = k
  · exact Or.inr hk
  · left
    rw [mem_keysOf_iff] at h ⊢
    rwa [dlookup_dinsert_ne d k k1 v hk] at h

theorem mem_keys_dinsert_mono (d : Table) (k k1 : String) (v : Option String)
    (h : k1 ∈ keysOf d) : k1 ∈ keysOf (dinsert d k v) := by
  by_cases hk : k1 = k
  · subst hk
    rw [mem_keysOf_iff, dlookup_dinsert_self]
    rfl
  · rw [mem_keysOf_iff] at h ⊢
    rwa [dlookup_dinsert_ne d k k1 v hk]

theorem exists_val_of_mem_keys (d : Table) (k : String) (h : k ∈ keysOf d) :
    ∃ v, (k, v) ∈ d := by
  induction d with
  | nil => simp [keysOf] at h
  | cons kv t ih =>
    obtain ⟨k0, w⟩ := kv
    rcases (by simpa [keysOf] using h : k = k0 ∨ k ∈ keysOf t) with h0 | h0
    · exact ⟨w, by simp [h0]⟩
    · obtain ⟨v, hv⟩ := ih h0
      exact ⟨v, by simp [hv]⟩

theorem fst_mem_keysOf (d : Table) (kv : String × Option String) (h : kv ∈ d) :
    kv.1 ∈ keysOf d :=
  List.mem_map_of_mem Prod.fst h

/-- The child URI always splits as some stem appended to the field name. -/
theorem childUri_eq_append (uri field : String) :
    ∃ pre, childUri uri field = pre ++ field := by
  unfold childUri
  by_cases h : pyEndsWith uri "/" = true
  · exact ⟨uri, by rw [if_pos h]⟩
  · exact ⟨uri ++ "/", by rw [if_neg h]⟩

/-! ## The crawl invariant

`CrawlInv svc d d2` relates the raw table `d` before some portion of the
crawl to the table `d2` after it: every key is either untouched, or is a
newly stored leaf — a key that was absent before, does not end in `'/'`, and
whose value is the collaborator's response for that URI (possibly `none`),
or, for a URI ending in the literal `security-groups`, the comma-joined
response. -/
def CrawlInv (svc : Svc) (d d2 : Table) : Prop :=
  ∀ k, dlookup d2 k = dlookup d k ∨
    (dlookup d k = none ∧ pyEndsWith k "/" = false ∧
      (dlookup d2 k = some (svc k) ∨
       ∃ pre c, k = pre ++ "security-groups" ∧ svc k = some c ∧
         dlookup d2 k = some (some (sgJoin c))))

theorem crawlInv_refl (svc : Svc) (d : Table) : CrawlInv svc d d := fun _ => Or.inl rfl

theorem crawlInv_trans (svc : Svc) (d0 d1 d2 : Table)
    (h01 : CrawlInv svc d0 d1) (h12 : CrawlInv svc d1 d2) : CrawlInv svc d0 d2 := by
  intro k
  rcases h12 k with h12k | ⟨hnone1, hsl, hval⟩
  · rcases h01 k with h01k | ⟨hnone0, hsl, hval⟩
    · exact Or.inl (h12k.trans h01k)
    · exact Or.inr ⟨hnone0, hsl, by rw [h12k]; exact hval⟩
  · rcases h01 k with h01k | ⟨hnone0, _, hval0⟩
    · exact Or.inr ⟨h01k ▸ hnone1, hsl, hval⟩
    · rcases hval0 with hv | ⟨pre, c, _, _, hv⟩ <;> rw [hv] at hnone1 <;> cases hnone1

/-- Storing a plain leaf (`self._data[new_uri] = content`) under the two
guards of the source preserves the crawl invariant. -/
theorem crawlInv_store (svc : Svc) (d : Table) (nu : String)
    (hmem : dmem d nu = false) (hsl : pyEndsWith nu "/" = false) :
    CrawlInv svc d (dinsert d nu (svc nu)) := by
  intro k
  by_cases hk : k = nu
  · subst hk
    exact Or.inr ⟨dmem_false_eq_none d k hmem, hsl,
      Or.inl (dlookup_dinsert_self d k (svc k))⟩
  · exact Or.inl (dlookup_dinsert_ne d nu k (svc nu) hk)

/-- Storing a `security-groups` leaf (`self._data[new_uri] = sg_fields`)
under the two guards of the source preserves the crawl invariant. -/
theorem crawlInv_store_sg (svc : Svc) (d : Table) (uri : String) (c : String)
    (hmem : dmem d (childUri uri "security-groups") = false)
    (hsl : pyEndsWith (childUri uri "security-groups") "/" = false)
    (hc : svc (childUri uri "security-groups") = some c) :
    CrawlInv svc d
      (dinsert d (childUri uri "security-groups") (some (sgJoin c))) := by
  intro k
  by_cases hk : k = childUri uri "security-groups"
  · rw [hk]
    obtain ⟨pre, hpre⟩ := childUri_eq_append uri "security-groups"
    exact Or.inr ⟨dmem_false_eq_none d _ hmem, hsl,
      Or.inr ⟨pre, c, hpre, hc, dlookup_dinsert_self d _ _⟩⟩
  · exact Or.inl (dlookup_dinsert_ne d _ k _ hk)

/-- The field loop preserves the crawl invariant, provided the abstracted
recursive call does. -/
theorem fetchLoop_inv (svc : Svc) (recur : String → Table → FRes)
    (hrec : ∀ u d d2, recur u d = .ok d2 → CrawlInv svc d d2)
    (uri : String) (rec : Bool) :
    ∀ fs d d2, fetchLoop recur svc uri rec fs d = .ok d2 → CrawlInv svc d d2 := by
  intro fs
  induction fs with
  | nil =>
    intro d d2 h
    rw [fetchLoop] at h
    injection h with h1
    rw [h1]
    exact crawlInv_refl svc d2
  | cons field rest ih =>
    intro d d2 h
    rw [fetchLoop] at h
    split at h
    case h_2 => exact FRes.noConfusion h
    case h_3 => exact FRes.noConfusion h
    case h_1 d1 hA =>
      have h01 : CrawlInv svc d d1 := by
        by_cases hc : pyEndsWith field "/" ∧ rec = true
        · rw [if_pos hc] at hA
          exact hrec _ _ _ hA
        · rw [if_neg hc] at hA
          injection hA with h1
          rw [h1]
          exact crawlInv_refl svc d1
      by_cases hg : dmem d1 (childUri uri field) = false ∧
          pyEndsWith (childUri uri field) "/" = false
      · rw [if_pos hg] at h
        by_cases hsg : field = "security-groups"
        · subst hsg
          rw [if_pos rfl] at h
          cases hc2 : svc (childUri uri "security-groups") with
          | none =>
            rw [hc2] at h
            exact FRes.noConfusion h
          | some c =>
            rw [hc2] at h
            exact crawlInv_trans svc d _ d2
              (crawlInv_trans svc d d1 _ h01
                (crawlInv_store_sg svc d1 uri c hg.1 hg.2 hc2))
              (ih _ _ h)
        · rw [if_neg hsg] at h
          exact crawlInv_trans svc d _ d2
            (crawlInv_trans svc d d1 _ h01
              (crawlInv_store svc d1 (childUri uri field) hg.1 hg.2))
            (ih _ _ h)
      · rw [if_neg hg] at h
        exact crawlInv_trans svc d d1 d2 h01 (ih _ _ h)

/-- `fetch` establishes the crawl invariant between its initial and final
raw table, for every collaborator behaviour and every fuel bound. -/
theorem fetchF_inv :
    ∀ n svc uri rec d d2, fetchF n svc uri rec d = .ok d2 → CrawlInv svc d d2 := by
  intro n
  induction n with
  | zero =>
    intro svc uri rec d d2 h
    exact FRes.noConfusion h
  | succ n ih =>
    intro svc uri rec d d2 h
    rw [fetchF] at h
    split at h
    next =>
      injection h with h1
      rw [h1]
      exact crawlInv_refl svc d2
    next body hb =>
      split at h
      next =>
        injection h with h1
        rw [h1]
        exact crawlInv_refl svc d2
      next =>
        exact fetchLoop_inv svc _ (fun u t t2 hh => ih svc u true t t2 hh) uri rec _ d d2 h

/-! ## Sanitization lemmas -/

theorem fixChar_ne_colon (c : Char) : ¬ fixChar c = ':' := by
  unfold fixChar
  by_cases h1 : c = ':'
  · simp [h1]
  · by_cases h2 : c = '-'
    · simp [h1, h2]
    · simp [h1, h2]

theorem fixChar_ne_hyphen (c : Char) : ¬ fixChar c = '-' := by
  unfold fixChar
  by_cases h1 : c = ':'
  · simp [h1]
  · by_cases h2 : c = '-'
    · simp [h1, h2]
    · simp [h1, h2]

theorem fixChar_idem (c : Char) : fixChar (fixChar c) = fixChar c := by
  by_cases h1 : c = ':'
  · subst h1; rfl
  · by_cases h2 : c = '-'
    · subst h2; rfl
    · have hc : fixChar c = c := by
        unfold fixChar
        rw [if_neg h1, if_neg h2]
      rw [hc]
      exact hc

theorem containsCh_map_fixChar_colon (l : List Char) :
    containsCh ':' (l.map fixChar) = false := by
  induction l with
  | nil => rfl
  | cons a t ih =>
    rw [List.map_cons, containsCh, if_neg (fixChar_ne_colon a)]
    exact ih

theorem containsCh_map_fixChar_hyphen (l : List Char) :
    containsCh '-' (l.map fixChar) = false := by
  induction l with
  | nil => rfl
  | cons a t ih =>
    rw [List.map_cons, containsCh, if_neg (fixChar_ne_hyphen a)]
    exact ih

/-- A sanitized key contains no colon. -/
theorem sanitize_no_colon (s : String) : pyIn ':' (sanitizeKey s) = false :=
  containsCh_map_fixChar_colon s.data

/-- A sanitized key contains no hyphen. -/
theorem sanitize_no_hyphen (s : String) : pyIn '-' (sanitizeKey s) = false :=
  containsCh_map_fixChar_hyphen s.data

/-- Sanitization is idempotent. -/
theorem sanitize_idem (s : String) : sanitizeKey (sanitizeKey s) = sanitizeKey s := by
  unfold sanitizeKey
  refine congrArg String.mk ?_
  show (s.data.map fixChar).map fixChar = s.data.map fixChar
  rw [List.map_map]
  exact List.map_congr_left (fun a _ => fixChar_idem a)

/-- A key without colon or hyphen is fixed by sanitization. -/
theorem sanitize_clean (s : String) (h1 : pyIn ':' s = false)
    (h2 : pyIn '-' s = false) : sanitizeKey s = s := by
  cases s with
  | mk l =>
    refine congrArg String.mk ?_
    show l.map fixChar = l
    unfold pyIn at h1 h2
    induction l with
    | nil => rfl
    | cons a t ih =>
      rw [containsCh] at h1 h2
      by_cases ha1 : a = ':'
      · rw [if_pos ha1] at h1; cases h1
      · by_cases ha2 : a = '-'
        · rw [if_pos ha2] at h2; cases h2
        · rw [if_neg ha1] at h1
          rw [if_neg ha2] at h2
          rw [List.map_cons, ih h1 h2]
          have hfix : fixChar a = a := by
            unfold fixChar
            rw [if_neg ha1, if_neg ha2]
          rw [hfix]

/-- Sanitization distributes over the fixed namespace prefix (which
contains neither colon nor hyphen). -/
theorem sanitize_ns (s : String) :
    sanitizeKey ("ansible_ec2_" ++ s) = "ansible_ec2_" ++ sanitizeKey s := by
  cases s with
  | mk l =>
    show String.mk (("ansible_ec2_".data ++ l).map fixChar) =
      String.mk ("ansible_ec2_".data ++ l.map fixChar)
    rw [List.map_append]
    rfl

/-! ## Normalizer lemmas -/

theorem mangledKey_is_prefixed (uri rk : String) :
    ∃ s, mangledKey uri rk = prefixKey s := by
  unfold mangledKey
  split
  · exact ⟨_, rfl⟩
  · exact ⟨_, rfl⟩

theorem keys_build_aux (uri : String) (fields : Table) :
    ∀ acc : Table, (∀ k, k ∈ keysOf acc → ∃ s, k = prefixKey s) →
      ∀ k, k ∈ keysOf (fields.foldl
        (fun nf kv => dinsert nf (mangledKey uri kv.1) kv.2) acc) →
      ∃ s, k = prefixKey s := by
  induction fields with
  | nil => intro acc hacc k hk; exact hacc k hk
  | cons kv t ih =>
    intro acc hacc k hk
    rw [List.foldl_cons] at hk
    refine ih _ ?_ k hk
    intro k1 hk1
    rcases mem_keys_dinsert _ _ _ _ hk1 with h | h
    · exact hacc k1 h
    · rw [h]
      exact mangledKey_is_prefixed uri kv.1

theorem keys_buildNewFields (uri : String) (fields : Table) (k : String)
    (hk : k ∈ keysOf (buildNewFields fields uri)) : ∃ s, k = prefixKey s := by
  refine keys_build_aux uri fields [] ?_ k hk
  intro k1 hk1
  simp [keysOf] at hk1

theorem mem_keys_filter (d : Table) (p : String × Option String → Bool) (k : String)
    (h : k ∈ keysOf (d.filter p)) : k ∈ keysOf d := by
  unfold keysOf at h ⊢
  obtain ⟨kv, hkv, hk⟩ := List.mem_map.mp h
  exact hk ▸ List.mem_map_of_mem Prod.fst (List.mem_of_mem_filter hkv)

theorem mangleFields_single (fields : Table) (uri pat : String) :
    mangleFields fields uri [pat] =
      (buildNewFields fields uri).filter (fun kv => !reSearch pat kv.1) := rfl

/-- A key on which the exclusion pattern matches is absent from the
filtered table. -/
theorem dmem_filter_matching (d : Table) (pat k : String)
    (hk : reSearch pat k = true) :
    dmem (d.filter (fun kv => !reSearch pat kv.1)) k = false := by
  induction d with
  | nil => rfl
  | cons kv t ih =>
    obtain ⟨k0, v0⟩ := kv
    by_cases hp : (!reSearch pat k0) = true
    · have hp2 : (fun kv : String × Option String => !reSearch pat kv.1) (k0, v0) = true := hp
      rw [@List.filter_cons_of_pos _ (fun kv : String × Option String => !reSearch pat kv.1) (k0, v0) t hp2]
      have hne : ¬ k0 = k := by
        intro he
        rw [he, hk] at hp
        simp at hp
      unfold dmem dlookup
      rw [if_neg hne]
      exact ih
    · have hp2 : ¬ (fun kv : String × Option String => !reSearch pat kv.1) (k0, v0) = true := hp
      rw [@List.filter_cons_of_neg _ (fun kv : String × Option String => !reSearch pat kv.1) (k0, v0) t hp2]
      exact ih

theorem fix_fold_mono (snap : Table) :
    ∀ acc k, k ∈ keysOf acc →
      k ∈ keysOf (snap.foldl (fun d kv =>
        if pyIn ':' kv.1 || pyIn '-' kv.1 then dinsert d (sanitizeKey kv.1) kv.2 else d)
        acc) := by
  induction snap with
  | nil => intro acc k hk; exact hk
  | cons kv t ih =>
    intro acc k hk
    rw [List.foldl_cons]
    refine ih _ k ?_
    by_cases hb : (pyIn ':' kv.1 || pyIn '-' kv.1) = true
    · rw [if_pos hb]
      exact mem_keys_dinsert_mono _ _ _ _ hk
    · rw [if_neg hb]
      exact hk

theorem fix_fold_keys (snap : Table) :
    ∀ acc k, k ∈ keysOf (snap.foldl (fun d kv =>
        if pyIn ':' kv.1 || pyIn '-' kv.1 then dinsert d (sanitizeKey kv.1) kv.2 else d)
        acc) →
      k ∈ keysOf acc ∨ ∃ kv, kv ∈ snap ∧ k = sanitizeKey kv.1 := by
  induction snap with
  | nil => intro acc k hk; exact Or.inl hk
  | cons kv t ih =>
    intro acc k hk
    rw [List.foldl_cons] at hk
    rcases ih _ k hk with h | ⟨kv1, hkv1, hs⟩
    · by_cases hb : (pyIn ':' kv.1 || pyIn '-' kv.1) = true
      · rw [if_pos hb] at h
        rcases mem_keys_dinsert _ _ _ _ h with h2 | h2
        · exact Or.inl h2
        · exact Or.inr ⟨kv, List.mem_cons_self kv t, h2⟩
      · rw [if_neg hb] at h
        exact Or.inl h
    · exact Or.inr ⟨kv1, List.mem_cons_of_mem kv hkv1, hs⟩

theorem fix_fold_sanitized (snap : Table) :
    ∀ acc, (∀ kv, kv ∈ snap → kv.1 ∈ keysOf acc) →
      ∀ kv, kv ∈ snap →
        sanitizeKey kv.1 ∈ keysOf (snap.foldl (fun d kv =>
          if pyIn ':' kv.1 || pyIn '-' kv.1 then dinsert d (sanitizeKey kv.1) kv.2 else d)
          acc) := by
  induction snap with
  | nil =>
    intro acc _ kv hkv
    exact absurd hkv (List.not_mem_nil kv)
  | cons kv0 t ih =>
    intro acc hacc kv hkv
    rw [List.foldl_cons]
    rcases List.mem_cons.mp hkv with he | ht
    · rw [he]
      by_cases hb : (pyIn ':' kv0.1 || pyIn '-' kv0.1) = true
      · rw [if_pos hb]
        refine fix_fold_mono t _ (sanitizeKey kv0.1) ?_
        rw [mem_keysOf_iff, dlookup_dinsert_self]
        rfl
      · rw [if_neg hb]
        simp only [Bool.or_eq_true, not_or, Bool.not_eq_true] at hb
        have hcl : sanitizeKey kv0.1 = kv0.1 := sanitize_clean kv0.1 hb.1 hb.2
        rw [hcl]
        exact fix_fold_mono t acc kv0.1 (hacc kv0 (List.mem_cons_self kv0 t))
    · refine ih _ ?_ kv ht
      intro kv2 h2
      have hk2 : kv2.1 ∈ keysOf acc := hacc kv2 (List.mem_cons_of_mem kv0 h2)
      by_cases hb : (pyIn ':' kv0.1 || pyIn '-' kv0.1) = true
      · rw [if_pos hb]
        exact mem_keys_dinsert_mono _ _ _ _ hk2
      · rw [if_neg hb]
        exact hk2

theorem fixInvalid_keys_closed (data : Table) (k : String)
    (hk : k ∈ keysOf (fixInvalidVarnames data)) :
    sanitizeKey k ∈ keysOf (fixInvalidVarnames data) := by
  have hsan : ∀ kv, kv ∈ data → sanitizeKey kv.1 ∈ keysOf (fixInvalidVarnames data) :=
    fun kv hkv =>
      fix_fold_sanitized data data (fun kv2 h2 => fst_mem_keysOf data kv2 h2) kv hkv
  rcases fix_fold_keys data data k hk with h | ⟨kv, hkv, hs⟩
  · obtain ⟨v, hv⟩ := exists_val_of_mem_keys data k h
    exact hsan (k, v) hv
  · rw [hs, sanitize_idem]
    exact hsan kv hkv

theorem fixInvalid_keys_prefixed (data : Table)
    (hpre : ∀ k, k ∈ keysOf data → ∃ s, k = "ansible_ec2_" ++ s) (k : String)
    (hk : k ∈ keysOf (fixInvalidVarnames data)) : ∃ s, k = "ansible_ec2_" ++ s := by
  rcases fix_fold_keys data data k hk with h | ⟨kv, hkv, hs⟩
  · exact hpre k h
  · obtain ⟨s, hsp⟩ := hpre kv.1 (fst_mem_keysOf data kv hkv)
    exact ⟨sanitizeKey s, by rw [hs, hsp, sanitize_ns]⟩

/-- `add_ec2_region` either leaves the table unchanged or assigns the
region key. -/
theorem addRegion_cases (data : Table) :
    addEc2Region data = data ∨
    ∃ z, addEc2Region data =
      dinsert data "ansible_ec2_placement_region" (some (regionLoop z AWS_REGIONS)) := by
  unfold addEc2Region
  split
  · exact Or.inl rfl
  · exact Or.inr ⟨_, rfl⟩

/-- Unfolding of a successful `run`: its result is the normalization
pipeline applied to the raw table produced by a successful crawl. -/
theorem run_ok_elim (fuel : Nat) (svc : Svc) (um uu us : String) (data : Table)
    (h : runFuel fuel svc um uu us = .ok data) :
    ∃ raw, fetchF fuel svc um true [] = .ok raw ∧
      data = addEc2Region (fixInvalidVarnames
        (dinsert (dinsert (mangleFields raw um ["public-keys-0"])
          (prefixKey "user-data") (svc uu)) (prefixKey "public-key") (svc us))) := by
  unfold runFuel at h
  split at h
  next raw hr =>
    refine ⟨raw, hr, ?_⟩
    injection h with h1
    rw [h1]
  next => exact FRes.noConfusion h
  next => exact FRes.noConfusion h

/-! ## Key-inventory lemmas (for the counting property) -/

theorem keysOf_length (d : Table) : (keysOf d).length = d.length :=
  List.length_map d Prod.fst

theorem dmem_eq_false_of_not_mem (d : Table) (k : String)
    (h : k ∉ keysOf d) : dmem d k = false := by
  rw [mem_keysOf_iff] at h
  unfold dmem
  exact Bool.eq_false_iff.mpr h

theorem keysOf_dinsert_fresh (d : Table) (k : String) (v : Option String)
    (h : dmem d k = false) : keysOf (dinsert d k v) = keysOf d ++ [k] := by
  induction d with
  | nil => rfl
  | cons kv t ih =>
    obtain ⟨k0, w⟩ := kv
    have h0 : ¬ k0 = k := by
      intro he
      unfold dmem dlookup at h
      rw [if_pos he] at h
      cases h
    have ht : dmem t k = false := by
      unfold dmem dlookup at h
      rw [if_neg h0] at h
      exact h
    show keysOf (if k0 = k then (k0, v) :: t else (k0, w) :: dinsert t k v) = _
    rw [if_neg h0]
    show k0 :: keysOf (dinsert t k v) = (k0 :: keysOf t) ++ [k]
    rw [ih ht, List.cons_append]

theorem mem_dinsert_cases (d : Table) (k : String) (v : Option String)
    (kv2 : String × Option String) (h : kv2 ∈ dinsert d k v) :
    kv2 ∈ d ∨ kv2.1 = k := by
  induction d with
  | nil =>
    right
    rw [List.mem_singleton.mp h]
  | cons kv0 t ih =>
    obtain ⟨k0, w⟩ := kv0
    by_cases h0 : k0 = k
    · rw [show dinsert ((k0, w) :: t) k v = (k0, v) :: t from by
        rw [dinsert, if_pos h0]] at h
      rcases List.mem_cons.mp h with he | ht
      · right
        rw [he, h0]
      · exact Or.inl (List.mem_cons_of_mem _ ht)
    · rw [show dinsert ((k0, w) :: t) k v = (k0, w) :: dinsert t k v from by
        rw [dinsert, if_neg h0]] at h
      rcases List.mem_cons.mp h with he | ht
      · exact Or.inl (he ▸ List.mem_cons_self _ _)
      · rcases ih ht with h1 | h1
        · exact Or.inl (List.mem_cons_of_mem _ h1)
        · exact Or.inr h1

theorem mem_build_fold (um : String) :
    ∀ (fields acc : Table) (kv2 : String × Option String),
      kv2 ∈ fields.foldl (fun nf kv => dinsert nf (mangledKey um kv.1) kv.2) acc →
      kv2 ∈ acc ∨ ∃ kv, kv ∈ fields ∧ kv2.1 = mangledKey um kv.1 := by
  intro fields
  induction fields with
  | nil => intro acc kv2 h; exact Or.inl h
  | cons kv t ih =>
    intro acc kv2 h
    rw [List.foldl_cons] at h
    rcases ih _ kv2 h with h1 | ⟨kv1, hkv1, he⟩
    · rcases mem_dinsert_cases _ _ _ _ h1 with h2 | h2
      · exact Or.inl h2
      · exact Or.inr ⟨kv, List.mem_cons_self kv t, h2⟩
    · exact Or.inr ⟨kv1, List.mem_cons_of_mem kv hkv1, he⟩

theorem keysOf_build_fold (um : String) :
    ∀ (fields acc : Table),
      (∀ kv, kv ∈ fields → mangledKey um kv.1 ∉ keysOf acc) →
      (fields.map (fun kv => mangledKey um kv.1)).Nodup →
      keysOf (fields.foldl (fun nf kv => dinsert nf (mangledKey um kv.1) kv.2) acc) =
        keysOf acc ++ fields.map (fun kv => mangledKey um kv.1) := by
  intro fields
  induction fields with
  | nil => intro acc _ _; simp
  | cons kv t ih =>
    intro acc hfresh hnodup
    rw [List.foldl_cons, List.map_cons]
    have hfr : dmem acc (mangledKey um kv.1) = false :=
      dmem_eq_false_of_not_mem _ _ (hfresh kv (List.mem_cons_self kv t))
    have hkeys := keysOf_dinsert_fresh acc (mangledKey um kv.1) kv.2 hfr
    have hhead : mangledKey um kv.1 ∉ t.map (fun kv => mangledKey um kv.1) :=
      (List.nodup_cons.mp hnodup).1
    have hfresh2 : ∀ kv2, kv2 ∈ t →
        mangledKey um kv2.1 ∉ keysOf (dinsert acc (mangledKey um kv.1) kv.2) := by
      intro kv2 h2
      rw [hkeys]
      intro hin
      rcases List.mem_append.mp hin with h3 | h3
      · exact hfresh kv2 (List.mem_cons_of_mem kv h2) h3
      · exact hhead (List.mem_singleton.mp h3 ▸ List.mem_map_of_mem _ h2)
    rw [ih _ hfresh2 (List.nodup_cons.mp hnodup).2, hkeys, List.append_assoc]
    rfl

theorem mangleFields_noop (raw : Table) (um : String)
    (hnof : ∀ kv, kv ∈ raw → reSearch "public-keys-0" (mangledKey um kv.1) = false) :
    mangleFields raw um ["public-keys-0"] = buildNewFields raw um := by
  rw [mangleFields_single]
  apply List.filter_eq_self.mpr
  intro kv2 h2
  rcases mem_build_fold um raw [] kv2 h2 with h | ⟨kv, hkv, he⟩
  · exact absurd h (List.not_mem_nil kv2)
  · show (!reSearch "public-keys-0" kv2.1) = true
    rw [he, hnof kv hkv]
    rfl

theorem keysOf_fix_fold :
    ∀ (snap acc : Table),
      (((keysOf snap).filter (fun k => pyIn ':' k || pyIn '-' k)).map sanitizeKey).Nodup →
      (∀ k, k ∈ ((keysOf snap).filter (fun k => pyIn ':' k || pyIn '-' k)).map sanitizeKey →
        k ∉ keysOf acc) →
      keysOf (snap.foldl (fun d kv =>
        if pyIn ':' kv.1 || pyIn '-' kv.1 then dinsert d (sanitizeKey kv.1) kv.2 else d)
        acc) =
        keysOf acc ++
          ((keysOf snap).filter (fun k => pyIn ':' k || pyIn '-' k)).map sanitizeKey := by
  intro snap
  induction snap with
  | nil => intro acc _ _; simp [keysOf]
  | cons kv t ih =>
    intro acc hnodup hfresh
    rw [List.foldl_cons]
    have hksnap : keysOf (kv :: t) = kv.1 :: keysOf t := rfl
    by_cases hb : (pyIn ':' kv.1 || pyIn '-' kv.1) = true
    · have hfilter : (keysOf (kv :: t)).filter (fun k => pyIn ':' k || pyIn '-' k) =
          kv.1 :: (keysOf t).filter (fun k => pyIn ':' k || pyIn '-' k) := by
        rw [hksnap, List.filter_cons, if_pos hb]
      rw [hfilter, List.map_cons] at hnodup hfresh
      have hfr : dmem acc (sanitizeKey kv.1) = false :=
        dmem_eq_false_of_not_mem _ _
          (hfresh (sanitizeKey kv.1) (List.mem_cons_self _ _))
      have hkeys := keysOf_dinsert_fresh acc (sanitizeKey kv.1) kv.2 hfr
      have hfresh2 : ∀ k,
          k ∈ ((keysOf t).filter (fun k => pyIn ':' k || pyIn '-' k)).map sanitizeKey →
          k ∉ keysOf (dinsert acc (sanitizeKey kv.1) kv.2) := by
        intro k hk
        rw [hkeys]
        intro hin
        rcases List.mem_append.mp hin with h3 | h3
        · exact hfresh k (List.mem_cons_of_mem _ hk) h3
        · exact (List.nodup_cons.mp hnodup).1 (List.mem_singleton.mp h3 ▸ hk)
      rw [if_pos hb, ih _ (List.nodup_cons.mp hnodup).2 hfresh2, hkeys,
        List.append_assoc, hfilter, List.map_cons]
      rfl
    · have hfilter : (keysOf (kv :: t)).filter (fun k => pyIn ':' k || pyIn '-' k) =
          (keysOf t).filter (fun k => pyIn ':' k || pyIn '-' k) := by
        rw [hksnap, List.filter_cons, if_neg hb]
      rw [hfilter] at hnodup hfresh
      rw [if_neg hb, ih _ hnodup hfresh, hfilter]

theorem crawlInv_preserves (svc : Svc) (d d2 : Table) (hinv : CrawlInv svc d d2)
    (k : String) (v : Option String) (hv : dlookup d k = some v) :
    dlookup d2 k = some v := by
  rcases hinv k with he | ⟨hn, _, _⟩
  · rw [he, hv]
  · rw [hv] at hn
    cases hn

/-- Processing a leaf field named `security-groups` whose guards pass and
whose content read succeeds stores the comma-joined content and continues
with the rest of the listing. -/
theorem fetchLoop_store_sg_step (recur : String → Table → FRes) (svc : Svc)
    (uri : String) (rec : Bool) (field : String) (rest : List String)
    (d1 : Table) (c : String)
    (hleaf : pyEndsWith field "/" = false)
    (hmem : dmem d1 (childUri uri field) = false)
    (hsl : pyEndsWith (childUri uri field) "/" = false)
    (hsg : field = "security-groups")
    (hc : svc (childUri uri field) = some c) :
    fetchLoop recur svc uri rec (field :: rest) d1 =
      fetchLoop recur svc uri rec rest
        (dinsert d1 (childUri uri field) (some (sgJoin c))) := by
  rw [fetchLoop, if_neg (fun hcon => by rw [hleaf] at hcon; exact absurd hcon.1 (by simp))]
  show (if dmem d1 (childUri uri field) = false ∧
      pyEndsWith (childUri uri field) "/" = false then
    if field = "security-groups" then
      match svc (childUri uri field) with
      | none => FRes.exn
      | some c =>
        fetchLoop recur svc uri rec rest
          (dinsert d1 (childUri uri field) (some (sgJoin c)))
    else
      fetchLoop recur svc uri rec rest
        (dinsert d1 (childUri uri field) (svc (childUri uri field)))
    else fetchLoop recur svc uri rec rest d1) = _
  rw [if_pos ⟨hmem, hsl⟩, if_pos hsg, hc]

/-- Processing a leaf field not named `security-groups` whose guards pass
stores the collaborator's content verbatim and continues with the rest of
the listing. -/
theorem fetchLoop_store_plain_step (recur : String → Table → FRes) (svc : Svc)
    (uri : String) (rec : Bool) (field : String) (rest : List String)
    (d1 : Table)
    (hleaf : pyEndsWith field "/" = false)
    (hmem : dmem d1 (childUri uri field) = false)
    (hsl : pyEndsWith (childUri uri field) "/" = false)
    (hne : ¬ field = "security-groups") :
    fetchLoop recur svc uri rec (field :: rest) d1 =
      fetchLoop recur svc uri rec rest
        (dinsert d1 (childUri uri field) (svc (childUri uri field))) := by
  rw [fetchLoop, if_neg (fun hcon => by rw [hleaf] at hcon; exact absurd hcon.1 (by simp))]
  show (if dmem d1 (childUri uri field) = false ∧
      pyEndsWith (childUri uri field) "/" = false then
    if field = "security-groups" then
      match svc (childUri uri field) with
      | none => FRes.exn
      | some c =>
        fetchLoop recur svc uri rec rest
          (dinsert d1 (childUri uri field) (some (sgJoin c)))
    else
      fetchLoop recur svc uri rec rest
        (dinsert d1 (childUri uri field) (svc (childUri uri field)))
    else fetchLoop recur svc uri rec rest d1) = _
  rw [if_pos ⟨hmem, hsl⟩, if_neg hne]

/-! ## Claim theorems -/

/-- The first-match semantics of the region loop: the loop with break
equals a first-match search over the ordered region list, defaulting to the
zone itself. -/
theorem regionLoop_eq_find (zone : String) (l : List String) :
    regionLoop zone l = (match l.find? (fun r => pyStartsWith zone r) with
      | some r => r
      | none => zone) := by
  induction l with
  | nil => rfl
  | cons r rs ih =>
    rw [regionLoop]
    by_cases h : pyStartsWith zone r = true
    · rw [if_pos h, List.find?_cons_of_pos _ h]
    · rw [if_neg h, List.find?_cons_of_neg _ (by simpa using h)]
      exact ih

/-- Claim C7: region inference adds nothing when the availability-zone fact
is not available (`data.get` yields `None`, i.e. the key is absent — a key
stored with a null value behaves identically); when it yields a zone value,
the region fact is the first prefix of the fixed ordered known-region list
that the zone starts with, or the full zone string verbatim when no known
prefix matches. -/
theorem claim_c7_region_inference (data : Table) :
    (pyGet data "ansible_ec2_placement_availability_zone" = none →
      addEc2Region data = data) ∧
    (∀ z, pyGet data "ansible_ec2_placement_availability_zone" = some z →
      dlookup (addEc2Region data) "ansible_ec2_placement_region" =
        some (some (match AWS_REGIONS.find? (fun r => pyStartsWith z r) with
                    | some r => r
                    | none => z))) := by
  constructor
  · intro h
    unfold addEc2Region
    rw [h]
  · intro z h
    unfold addEc2Region
    rw [h]
    show dlookup (dinsert data "ansible_ec2_placement_region"
      (some (regionLoop z AWS_REGIONS))) "ansible_ec2_placement_region" = _
    rw [dlookup_dinsert_self, regionLoop_eq_find]

/-- Witness for C7: zone `us-east-1a` infers region `us-east-1`; zone
`xx-unknown-9z` (no known prefix) is used verbatim; with no zone fact the
table is unchanged. -/
theorem claim_c7_witness :
    pyGet [("ansible_ec2_placement_availability_zone", some "us-east-1a")]
        "ansible_ec2_placement_availability_zone" = some "us-east-1a" ∧
    dlookup (addEc2Region
        [("ansible_ec2_placement_availability_zone", some "us-east-1a")])
        "ansible_ec2_placement_region" = some (some "us-east-1") ∧
    dlookup (addEc2Region
        [("ansible_ec2_placement_availability_zone", some "xx-unknown-9z")])
        "ansible_ec2_placement_region" = some (some "xx-unknown-9z") ∧
    addEc2Region [] = [] := by
  refine ⟨rfl, ?_, ?_, ?_⟩
  · exact ((claim_c7_region_inference
      [("ansible_ec2_placement_availability_zone", some "us-east-1a")]).2
        "us-east-1a" rfl).trans rfl
  · exact ((claim_c7_region_inference
      [("ansible_ec2_placement_availability_zone", some "xx-unknown-9z")]).2
        "xx-unknown-9z" rfl).trans rfl
  · exact (claim_c7_region_inference []).1 rfl

/-- Claim C9: a raw key whose mangled name matches the exclusion pattern
(default `public-keys-0`) never appears in the normalizer's output,
regardless of nesting depth. -/
theorem claim_c9_filtering (fields : Table) (uri rawk : String)
    (hmem : dmem fields rawk = true)
    (hmatch : reSearch "public-keys-0" (mangledKey uri rawk) = true) :
    dmem (mangleFields fields uri ["public-keys-0"]) (mangledKey uri rawk) = false := by
  rw [mangleFields_single]
  exact dmem_filter_matching _ _ _ hmatch

/-- Witness for C9: the deeply nested SSH-key raw entry is filtered out. -/
theorem claim_c9_witness :
    dmem [("b/public-keys/0/openssh-key", some "ssh-rsa AAA")]
        "b/public-keys/0/openssh-key" = true ∧
    reSearch "public-keys-0" (mangledKey "b/" "b/public-keys/0/openssh-key") = true ∧
    dmem (mangleFields [("b/public-keys/0/openssh-key", some "ssh-rsa AAA")] "b/"
        ["public-keys-0"]) (mangledKey "b/" "b/public-keys/0/openssh-key") = false :=
  ⟨by decide, by decide, claim_c9_filtering _ "b/" _ (by decide) (by decide)⟩

/-- Claim C2 (code bug): when the base listing succeeds with the single
child `security-groups` but the content read of that child fails,
`Ec2Metadata.run` raises — `content` is `None` and
`",".join(content.split('\n'))` throws `AttributeError` — instead of
returning a mapping. -/
theorem claim_c2_sg_crash : runFuel 3 svcSGFail "b/" "uu" "ss" = FRes.exn := by decide

/-- Claim C3 (corrected): after a successful crawl, every raw-table key
either predates the crawl or is a stored leaf: it does not end with the
path separator, and its value is the collaborator's response for that URI —
which is null when the content fetch failed — or the comma-joined response
for a `security-groups` leaf.  In particular a failed leaf content fetch
records the key with null content rather than omitting it. -/
theorem claim_c3_raw_entries (n : Nat) (svc : Svc) (uri : String) (rec : Bool)
    (d d2 : Table) (h : fetchF n svc uri rec d = .ok d2) :
    ∀ k, k ∈ keysOf d2 → k ∈ keysOf d ∨
      (pyEndsWith k "/" = false ∧
        (dlookup d2 k = some (svc k) ∨
         ∃ pre c, k = pre ++ "security-groups" ∧ svc k = some c ∧
           dlookup d2 k = some (some (sgJoin c)))) := by
  intro k hk
  rcases fetchF_inv n svc uri rec d d2 h k with he | ⟨hnone, hsl, hval⟩
  · left
    rw [mem_keysOf_iff] at hk ⊢
    rwa [he] at hk
  · exact Or.inr ⟨hsl, hval⟩

/-- Counterexample for C3 as stated: the leaf `foo` is listed, its content
fetch fails, and the crawl records `("b/foo", None)` — the key is present in
the raw table even though no content was obtained. -/
theorem claim_c3_counterexample :
    fetchF 3 svcLeafFail "b/" true [] = FRes.ok [("b/foo", none)] ∧
    svcLeafFail "b/foo" = none ∧
    dmem [("b/foo", none)] "b/foo" = true := by decide

/-- Witness for C3 (amended): instantiating the raw-entry theorem on the
failed-leaf behaviour. -/
theorem claim_c3_witness :
    "b/foo" ∈ keysOf ([("b/foo", none)] : Table) ∧
    ("b/foo" ∈ keysOf ([] : Table) ∨
      (pyEndsWith "b/foo" "/" = false ∧
        (dlookup [("b/foo", none)] "b/foo" = some (svcLeafFail "b/foo") ∨
         ∃ pre c, "b/foo" = pre ++ "security-groups" ∧
           svcLeafFail "b/foo" = some c ∧
           dlookup [("b/foo", none)] "b/foo" = some (some (sgJoin c))))) :=
  ⟨by decide, claim_c3_raw_entries 3 svcLeafFail "b/" true [] [("b/foo", none)]
    (by decide) "b/foo" (by decide)⟩

/-- Under the cyclic listing behaviour every fuel bound is exhausted: the
unguarded directory recursion of `fetch` never terminates. -/
theorem fetchF_cyclic_fuelOut :
    ∀ n uri d, fetchF n svcCyclic uri true d = FRes.fuelOut := by
  intro n
  induction n with
  | zero => intro uri d; rfl
  | succ n ih =>
    intro uri d
    have hstep : fetchF (n + 1) svcCyclic uri true d =
        fetchLoop (fun u t => fetchF n svcCyclic u true t) svcCyclic uri true ["a/"] d := rfl
    rw [hstep, fetchLoop,
      if_pos (show (pyEndsWith "a/" "/") = true ∧ true = true from by decide),
      ih (uri ++ "a/") d]

/-- Claim C6 (corrected): (1) an entry already present in the raw table is
preserved untouched by all further crawling — a known URI is never
content-fetched into a different stored value; (2) but directory recursion
itself is not guarded by the raw table: under the cyclic listing behaviour
`svcCyclic`, `fetch` exhausts every fuel bound, i.e. the recursion never
terminates. -/
theorem claim_c6_guard :
    (∀ n svc uri rec d d2, fetchF n svc uri rec d = FRes.ok d2 →
      ∀ k v, dlookup d k = some v → dlookup d2 k = some v) ∧
    (∀ n uri d, fetchF n svcCyclic uri true d = FRes.fuelOut) := by
  constructor
  · intro n svc uri rec d d2 h k v hv
    rcases fetchF_inv n svc uri rec d d2 h k with he | ⟨hnone, _, _⟩
    · rw [he, hv]
    · rw [hv] at hnone
      cases hnone
  · exact fetchF_cyclic_fuelOut

/-- Counterexample for C6 as stated: with a repeated directory entry in the
base listing, the directory URI `b/a/` is queried twice (the trace records
it twice), refuting "no URI is fetched twice". -/
theorem claim_c6_counterexample :
    fetchTrace 5 svcRepeatDir "b/" true [] [] =
      (FRes.ok [("b/a/x", some "y")], ["b/", "b/a/", "b/a/x", "b/a/"]) ∧
    List.count "b/a/" ["b/", "b/a/", "b/a/x", "b/a/"] = 2 := by decide

/-- Witness for C6 (amended): a pre-existing entry survives a crawl step
unchanged. -/
theorem claim_c6_witness :
    fetchF 1 svcAllFail "u" true [("k", some "v")] = FRes.ok [("k", some "v")] ∧
    dlookup [("k", some "v")] "k" = some (some "v") :=
  ⟨by decide, claim_c6_guard.1 1 svcAllFail "u" true [("k", some "v")]
    [("k", some "v")] (by decide) "k" (some "v") (by decide)⟩

/-- Claim C8: at every store event of the crawl — any service, any listing
state, any fuel — a successfully fetched leaf child literally named
`security-groups` is recorded in the final raw table with its content's
newline-separated values joined by commas, and every leaf child with any
other name (including names merely ending in `security-groups`) is recorded
with the collaborator's content unchanged; concretely, the
`security-groups` leaf with content `"sg-a\nsg-b\nsg-c"` is recorded as
`"sg-a,sg-b,sg-c"` while its sibling leaf is recorded verbatim. -/
theorem claim_c8_security_groups :
    (∀ (n : Nat) (svc : Svc) (uri : String) (rec : Bool) (field : String)
        (rest : List String) (d1 d2 : Table) (c : String),
      pyEndsWith field "/" = false →
      dmem d1 (childUri uri field) = false →
      pyEndsWith (childUri uri field) "/" = false →
      field = "security-groups" →
      svc (childUri uri field) = some c →
      fetchLoop (fun u t => fetchF n svc u true t) svc uri rec (field :: rest) d1 =
        FRes.ok d2 →
      dlookup d2 (childUri uri field) = some (some (sgJoin c))) ∧
    (∀ (n : Nat) (svc : Svc) (uri : String) (rec : Bool) (field : String)
        (rest : List String) (d1 d2 : Table),
      pyEndsWith field "/" = false →
      dmem d1 (childUri uri field) = false →
      pyEndsWith (childUri uri field) "/" = false →
      ¬ field = "security-groups" →
      fetchLoop (fun u t => fetchF n svc u true t) svc uri rec (field :: rest) d1 =
        FRes.ok d2 →
      dlookup d2 (childUri uri field) = some (svc (childUri uri field))) ∧
    fetchF 5 svcSGDemo "b/" true [] =
      FRes.ok [("b/security-groups", some "sg-a,sg-b,sg-c"),
               ("b/other", some "plain")] := by
  refine ⟨?_, ?_, by decide⟩
  · intro n svc uri rec field rest d1 d2 c hleaf hmem hsl hsg hc h
    rw [fetchLoop_store_sg_step _ svc uri rec field rest d1 c hleaf hmem hsl hsg hc] at h
    have hinv := fetchLoop_inv svc _
      (fun u t t2 hh => fetchF_inv n svc u true t t2 hh) uri rec rest _ d2 h
    exact crawlInv_preserves svc _ d2 hinv _ _ (dlookup_dinsert_self d1 _ _)
  · intro n svc uri rec field rest d1 d2 hleaf hmem hsl hne h
    rw [fetchLoop_store_plain_step _ svc uri rec field rest d1 hleaf hmem hsl hne] at h
    have hinv := fetchLoop_inv svc _
      (fun u t t2 hh => fetchF_inv n svc u true t t2 hh) uri rec rest _ d2 h
    exact crawlInv_preserves svc _ d2 hinv _ _ (dlookup_dinsert_self d1 _ _)

/-- Witness for C8: instantiating both universal conjuncts on the demo
behaviour — the `security-groups` store event (joined) and the `other`
store event (verbatim). -/
theorem claim_c8_witness :
    dlookup [("b/security-groups", some "sg-a,sg-b,sg-c"), ("b/other", some "plain")]
      (childUri "b/" "security-groups") = some (some (sgJoin "sg-a\nsg-b\nsg-c")) ∧
    dlookup [("b/security-groups", some "sg-a,sg-b,sg-c"), ("b/other", some "plain")]
      (childUri "b/" "other") = some (svcSGDemo (childUri "b/" "other")) :=
  ⟨claim_c8_security_groups.1 4 svcSGDemo "b/" true "security-groups" ["other"]
      [] [("b/security-groups", some "sg-a,sg-b,sg-c"), ("b/other", some "plain")]
      "sg-a\nsg-b\nsg-c" (by decide) (by decide) (by decide) rfl (by decide)
      (by decide),
   claim_c8_security_groups.2.1 4 svcSGDemo "b/" true "other" []
      [("b/security-groups", some "sg-a,sg-b,sg-c")]
      [("b/security-groups", some "sg-a,sg-b,sg-c"), ("b/other", some "plain")]
      (by decide) (by decide) (by decide) (by decide) (by decide)⟩

/-- Counterexample for C5 as stated: with every request failing from the
very first one, `run` returns a non-empty mapping (four keys with null
values), not an empty one. -/
theorem claim_c5_counterexample :
    runFuel 3 svcAllFail "b/" "uu" "ss" = FRes.ok
      [("ansible_ec2_user-data", none), ("ansible_ec2_public-key", none),
       ("ansible_ec2_user_data", none), ("ansible_ec2_public_key", none)] ∧
    ([("ansible_ec2_user-data", none), ("ansible_ec2_public-key", none),
      ("ansible_ec2_user_data", none), ("ansible_ec2_public_key", none)] : Table) ≠
      [] := by
  exact ⟨rfl, by decide⟩

/-- Claim C5 (corrected): when every request fails, the raw table is indeed
empty, but `run` returns exactly the two supplementary keys (with null
values) plus their two sanitized aliases — for every positive fuel bound
and all endpoint URIs. -/
theorem claim_c5_allfail_table (n : Nat) (um uu us : String) :
    fetchF (n + 1) svcAllFail um true [] = FRes.ok [] ∧
    runFuel (n + 1) svcAllFail um uu us = FRes.ok
      [("ansible_ec2_user-data", none), ("ansible_ec2_public-key", none),
       ("ansible_ec2_user_data", none), ("ansible_ec2_public_key", none)] :=
  ⟨rfl, rfl⟩

/-- Counterexample for C4 as stated: a tree with exactly one reachable
unfiltered leaf yields a five-key flat table, not 1 + 2 = 3 — the
invalid-character pass adds sanitized aliases while keeping the originals. -/
theorem claim_c4_counterexample :
    runFuel 3 svcOneLeaf "b/" "uu" "ss" = FRes.ok
      [("ansible_ec2_a", some "x"),
       ("ansible_ec2_user-data", some "UD"), ("ansible_ec2_public-key", some "PK"),
       ("ansible_ec2_user_data", some "UD"), ("ansible_ec2_public_key", some "PK")] ∧
    ¬ ([("ansible_ec2_a", some "x"),
        ("ansible_ec2_user-data", some "UD"), ("ansible_ec2_public-key", some "PK"),
        ("ansible_ec2_user_data", some "UD"),
        ("ansible_ec2_public_key", some "PK")].length = 1 + 2) := by decide

/-- Claim C4 (corrected): for every successful `run` over any collaborator
behaviour, provided mangling and sanitization produce no key collisions —
the mangled keys together with the two supplementary keys are pairwise
distinct, no mangled key matches the exclusion pattern, the sanitized
aliases are pairwise distinct and fresh, and the region key collides with
none of them — the flat-table key count equals the number of raw-table
entries (the reachable stored leaves) plus the two supplementary keys, plus
one sanitized alias for each key containing a colon or hyphen, plus one
region key exactly when region inference added it. -/
theorem claim_c4_key_count (fuel : Nat) (svc : Svc) (um uu us : String)
    (data raw : Table)
    (hrun : runFuel fuel svc um uu us = FRes.ok data)
    (hraw : fetchF fuel svc um true [] = FRes.ok raw)
    (hnodup : (manKeys um raw).Nodup)
    (hnof : ∀ kv, kv ∈ raw → reSearch "public-keys-0" (mangledKey um kv.1) = false)
    (halias : (aliasKeys um raw).Nodup)
    (hfresh : ∀ k, k ∈ aliasKeys um raw → k ∉ manKeys um raw)
    (hregion : "ansible_ec2_placement_region" ∉ manKeys um raw ++ aliasKeys um raw) :
    data.length = raw.length + 2 + (aliasKeys um raw).length +
      (if dmem data "ansible_ec2_placement_region" = true then 1 else 0) := by
  obtain ⟨raw2, hraw2, hdata⟩ := run_ok_elim fuel svc um uu us data hrun
  rw [hraw] at hraw2
  injection hraw2 with hre
  subst hre
  have hnodup2 : (raw.map (fun kv => mangledKey um kv.1) ++
      [prefixKey "user-data", prefixKey "public-key"]).Nodup := hnodup
  obtain ⟨hnodup_m, hnodup_sup, hdisj⟩ := List.nodup_append.mp hnodup2
  have hudfresh : prefixKey "user-data" ∉ raw.map (fun kv => mangledKey um kv.1) :=
    fun h => hdisj h (List.mem_cons_self _ _)
  have hpkfresh : prefixKey "public-key" ∉ raw.map (fun kv => mangledKey um kv.1) :=
    fun h => hdisj h (by simp)
  have hudpk : ¬ prefixKey "user-data" = prefixKey "public-key" := by
    intro he
    have hni := (List.nodup_cons.mp hnodup_sup).1
    rw [he] at hni
    exact hni (List.mem_singleton.mpr rfl)
  have hmnoop : mangleFields raw um ["public-keys-0"] = buildNewFields raw um :=
    mangleFields_noop raw um hnof
  have hbk : keysOf (buildNewFields raw um) =
      raw.map (fun kv => mangledKey um kv.1) := by
    have h0 := keysOf_build_fold um raw [] (fun kv _ => List.not_mem_nil _) hnodup_m
    rw [show keysOf ([] : Table) = [] from rfl, List.nil_append] at h0
    exact h0
  have hud : dmem (mangleFields raw um ["public-keys-0"])
      (prefixKey "user-data") = false := by
    apply dmem_eq_false_of_not_mem
    rw [hmnoop, hbk]
    exact hudfresh
  have hk1 : keysOf (dinsert (mangleFields raw um ["public-keys-0"])
      (prefixKey "user-data") (svc uu)) =
      raw.map (fun kv => mangledKey um kv.1) ++ [prefixKey "user-data"] := by
    rw [keysOf_dinsert_fresh _ _ _ hud, hmnoop, hbk]
  have hpk2 : dmem (dinsert (mangleFields raw um ["public-keys-0"])
      (prefixKey "user-data") (svc uu)) (prefixKey "public-key") = false := by
    apply dmem_eq_false_of_not_mem
    rw [hk1]
    intro hin
    rcases List.mem_append.mp hin with h | h
    · exact hpkfresh h
    · exact hudpk (List.mem_singleton.mp h).symm
  generalize hS : dinsert (dinsert (mangleFields raw um ["public-keys-0"])
      (prefixKey "user-data") (svc uu)) (prefixKey "public-key") (svc us) = s2 at hdata
  have hk2 : keysOf s2 = manKeys um raw := by
    rw [← hS, keysOf_dinsert_fresh _ _ _ hpk2, hk1, List.append_assoc]
    rfl
  have halias2 : (((keysOf s2).filter
      (fun k => pyIn ':' k || pyIn '-' k)).map sanitizeKey).Nodup := by
    rw [hk2]
    exact halias
  have hfresh2 : ∀ k, k ∈ ((keysOf s2).filter
      (fun k => pyIn ':' k || pyIn '-' k)).map sanitizeKey → k ∉ keysOf s2 := by
    intro k hk
    rw [hk2] at hk ⊢
    exact hfresh k hk
  have hkf : keysOf (fixInvalidVarnames s2) = manKeys um raw ++ aliasKeys um raw := by
    have h0 := keysOf_fix_fold s2 s2 halias2 hfresh2
    rw [hk2] at h0
    exact h0
  have hlenf : (fixInvalidVarnames s2).length =
      raw.length + 2 + (aliasKeys um raw).length := by
    rw [← keysOf_length (fixInvalidVarnames s2), hkf, List.length_append]
    have hm : (manKeys um raw).length = raw.length + 2 := by
      show (raw.map (fun kv => mangledKey um kv.1) ++
        [prefixKey "user-data", prefixKey "public-key"]).length = raw.length + 2
      rw [List.length_append, List.length_map]
      rfl
    rw [hm]
  have hrfix : dmem (fixInvalidVarnames s2) "ansible_ec2_placement_region" = false := by
    apply dmem_eq_false_of_not_mem
    rw [hkf]
    exact hregion
  subst hdata
  rcases addRegion_cases (fixInvalidVarnames s2) with hr | ⟨z, hr⟩
  · rw [hr, hrfix, if_neg Bool.false_ne_true, Nat.add_zero]
    exact hlenf
  · rw [hr]
    have hdm : dmem (dinsert (fixInvalidVarnames s2) "ansible_ec2_placement_region"
        (some (regionLoop z AWS_REGIONS))) "ansible_ec2_placement_region" = true := by
      unfold dmem
      rw [dlookup_dinsert_self]
      rfl
    rw [hdm, if_pos rfl,
      ← keysOf_length (dinsert (fixInvalidVarnames s2) "ansible_ec2_placement_region"
        (some (regionLoop z AWS_REGIONS))),
      keysOf_dinsert_fresh _ _ _ hrfix, List.length_append,
      keysOf_length (fixInvalidVarnames s2), hlenf]
    rfl

/-- Witness for C4 (amended): on the end-to-end scenario the hypotheses
hold and the count is 2 + 2 + 4 + 1 = 9. -/
theorem claim_c4_witness :
    runFuel 9 (svcE2E "i-1234" "us-east-1a" "UD" "PK") "b/" "uu" "ss" =
      FRes.ok e2eData ∧
    (aliasKeys "b/" e2eRaw).length = 4 ∧
    e2eData.length = e2eRaw.length + 2 + (aliasKeys "b/" e2eRaw).length +
      (if dmem e2eData "ansible_ec2_placement_region" = true then 1 else 0) :=
  ⟨by decide, by decide,
   claim_c4_key_count 9 (svcE2E "i-1234" "us-east-1a" "UD" "PK") "b/" "uu" "ss"
     e2eData e2eRaw (by decide) (by decide) (by decide) (by decide)
     (by decide) (by decide) (by decide)⟩

/-- Counterexample for C1 as stated: a successful `run` always emits the
supplementary key `ansible_ec2_user-data`, which contains a hyphen. -/
theorem claim_c1_counterexample :
    runFuel 1 svcAllFail "b/" "u2" "s2" = FRes.ok
      [("ansible_ec2_user-data", none), ("ansible_ec2_public-key", none),
       ("ansible_ec2_user_data", none), ("ansible_ec2_public_key", none)] ∧
    "ansible_ec2_user-data" ∈ keysOf
      ([("ansible_ec2_user-data", none), ("ansible_ec2_public-key", none),
        ("ansible_ec2_user_data", none), ("ansible_ec2_public_key", none)] : Table) ∧
    pyIn '-' "ansible_ec2_user-data" = true := by decide

/-- Claim C1 (corrected): the invalid-character pass adds an underscored
alias for every key containing a colon or hyphen but keeps the original
keys, so emitted keys may still contain hyphens; yet for every emitted key
its fully sanitized variant — containing neither colon nor hyphen — is also
present in the returned mapping. -/
theorem claim_c1_sanitized_alias (fuel : Nat) (svc : Svc) (um uu us : String)
    (data : Table) (h : runFuel fuel svc um uu us = FRes.ok data) :
    ∀ k, k ∈ keysOf data →
      sanitizeKey k ∈ keysOf data ∧
      pyIn ':' (sanitizeKey k) = false ∧ pyIn '-' (sanitizeKey k) = false := by
  obtain ⟨raw, hraw, hdata⟩ := run_ok_elim fuel svc um uu us data h
  subst hdata
  intro k hk
  refine ⟨?_, sanitize_no_colon k, sanitize_no_hyphen k⟩
  rcases addRegion_cases (fixInvalidVarnames
    (dinsert (dinsert (mangleFields raw um ["public-keys-0"])
      (prefixKey "user-data") (svc uu)) (prefixKey "public-key") (svc us)))
    with hr | ⟨z, hr⟩
  · rw [hr] at hk ⊢
    exact fixInvalid_keys_closed _ k hk
  · rw [hr] at hk ⊢
    rcases mem_keys_dinsert _ _ _ _ hk with h4 | h4
    · exact mem_keys_dinsert_mono _ _ _ _ (fixInvalid_keys_closed _ k h4)
    · rw [h4]
      have hsr : sanitizeKey "ansible_ec2_placement_region" =
          "ansible_ec2_placement_region" := rfl
      rw [hsr, mem_keysOf_iff, dlookup_dinsert_self]
      rfl

/-- Witness for C1 (amended): the sanitized alias of
`ansible_ec2_user-data` is present in the all-fail run output. -/
theorem claim_c1_witness :
    sanitizeKey "ansible_ec2_user-data" ∈ keysOf
      ([("ansible_ec2_user-data", none), ("ansible_ec2_public-key", none),
        ("ansible_ec2_user_data", none), ("ansible_ec2_public_key", none)] : Table) ∧
    pyIn ':' (sanitizeKey "ansible_ec2_user-data") = false ∧
    pyIn '-' (sanitizeKey "ansible_ec2_user-data") = false :=
  claim_c1_sanitized_alias 1 svcAllFail "b/" "uu" "ss" _ rfl
    "ansible_ec2_user-data" (by decide)

/-- Claim C10: every key of the mapping returned by a successful `run`
begins with the namespace token `ansible_ec2_`: mangled keys, the two
supplementary keys, every sanitized alias and the region key all carry it,
and sanitization never alters the prefix. -/
theorem claim_c10_ns (fuel : Nat) (svc : Svc) (um uu us : String) (data : Table)
    (h : runFuel fuel svc um uu us = FRes.ok data) :
    ∀ k, k ∈ keysOf data → ∃ s, k = "ansible_ec2_" ++ s := by
  obtain ⟨raw, hraw, hdata⟩ := run_ok_elim fuel svc um uu us data h
  subst hdata
  have hpre2 : ∀ k2, k2 ∈ keysOf
      (dinsert (dinsert (mangleFields raw um ["public-keys-0"])
        (prefixKey "user-data") (svc uu)) (prefixKey "public-key") (svc us)) →
      ∃ s, k2 = "ansible_ec2_" ++ s := by
    intro k2 hk2
    rcases mem_keys_dinsert _ _ _ _ hk2 with h2 | h2
    · rcases mem_keys_dinsert _ _ _ _ h2 with h1 | h1
      · rw [mangleFields_single] at h1
        obtain ⟨s, hs⟩ := keys_buildNewFields um raw k2 (mem_keys_filter _ _ _ h1)
        exact ⟨s, hs⟩
      · exact ⟨"user-data", by rw [h1]; rfl⟩
    · exact ⟨"public-key", by rw [h2]; rfl⟩
  intro k hk
  rcases addRegion_cases (fixInvalidVarnames
    (dinsert (dinsert (mangleFields raw um ["public-keys-0"])
      (prefixKey "user-data") (svc uu)) (prefixKey "public-key") (svc us)))
    with hr | ⟨z, hr⟩
  · rw [hr] at hk
    exact fixInvalid_keys_prefixed _ hpre2 k hk
  · rw [hr] at hk
    rcases mem_keys_dinsert _ _ _ _ hk with h4 | h4
    · exact fixInvalid_keys_prefixed _ hpre2 k h4
    · exact ⟨"placement_region", by rw [h4]; rfl⟩

/-- Witness for C10: the key `ansible_ec2_user-data` of the all-fail run
output carries the namespace prefix. -/
theorem claim_c10_witness :
    runFuel 1 svcAllFail "b/" "uu" "ss" = FRes.ok
      [("ansible_ec2_user-data", none), ("ansible_ec2_public-key", none),
       ("ansible_ec2_user_data", none), ("ansible_ec2_public_key", none)] ∧
    (∃ s, "ansible_ec2_user-data" = "ansible_ec2_" ++ s) :=
  ⟨rfl, claim_c10_ns 1 svcAllFail "b/" "uu" "ss" _ rfl
    "ansible_ec2_user-data" (by decide)⟩
